import Mathlib

/-!
Verification of the makefile-mcp core against its specification.

The Python source is shallowly embedded:
* `parser.py` (`parse_makefile`, `normalize_tool_name`) as executable
  functions on `String`, reproducing the exact semantics of the two regular
  expressions used there, including their multi-line behaviour;
* `server.py` (`run_make`, `set_working_directory`, the filter loop of
  `create_server`) as pure functions; the side effects of one execution
  (command line built, cwd passed to the subprocess, signals sent on
  timeout or cancellation) are reified in an `ExecEffect` record, and the
  module-global working-directory override together with the OS-level
  current directory of the server process form a `World` record;
* `server_v2.py` (`run_make_target`, the filter loop and the chdir of
  `serve`) likewise;
* the standard-library helpers the source relies on (`str.split`,
  `str.strip`, the `or` operator on optional strings, `fnmatch.fnmatch`)
  with Python truthiness semantics.
-/

/-- Python `\s` / `str.split()` / `str.strip()` whitespace (ASCII range). -/
def isPySpace (c : Char) : Bool :=
  c = ' ' || c = '\t' || c = '\n' || c = '\r' || c = '\x0b' || c = '\x0c'

/-- Python `str.strip()` on a character list. -/
def pyStrip (s : List Char) : List Char :=
  ((s.dropWhile isPySpace).reverse.dropWhile isPySpace).reverse

/-- Python `str.split()` (split on whitespace runs, no empty tokens), fueled. -/
def pySplitGo : Nat → List Char → List (List Char)
  | 0, _ => []
  | _ + 1, [] => []
  | fuel + 1, c :: rest =>
    if isPySpace c then
      pySplitGo fuel rest
    else
      (c :: rest.takeWhile (fun d => !isPySpace d)) ::
        pySplitGo fuel (rest.dropWhile (fun d => !isPySpace d))

/-- Python `str.split()` on a `String`. -/
def pySplit (s : String) : List String :=
  (pySplitGo (s.data.length + 1) s.data).map String.mk

/-- Python `a or b` on two optional strings (`None` and `""` are falsy). -/
def pyOr (a b : Option String) : Option String :=
  match a with
  | none => b
  | some s => if s = "" then b else some s

/-- Python `a or b` on two strings (`""` is falsy). -/
def pyOrS (a b : String) : String :=
  if a = "" then b else a

/-! ## parser.py -/

/-- The `MakeTarget` dataclass of `parser.py`. -/
structure MakeTarget where
  name : String
  description : String
  is_phony : Bool := false
  deriving DecidableEq, Repr

/-- First character of the target-name group `[a-zA-Z_]`. -/
def isNameStart (c : Char) : Bool :=
  c.isAlpha || c = '_'

/-- Later characters of the target-name group `[a-zA-Z0-9_-]`. -/
def isNameChar (c : Char) : Bool :=
  c.isAlphanum || c = '_' || c = '-'

/-- The part of the target pattern after the captured name: `\s*`, the
colon, `(?:[^#]*)##`, and the description group with its end-of-match
remainder (see `matchTargetAt`). -/
def matchDescPart (afterName : List Char) : Option (List Char × List Char) :=
  match afterName.dropWhile isPySpace with
  | ':' :: afterColon =>
    match afterColon.dropWhile (fun d => d ≠ '#') with
    | '#' :: '#' :: afterHash =>
      match afterHash.dropWhile isPySpace with
      | x :: xs =>
        some ((x :: xs).takeWhile (fun d => d ≠ '\n'),
              (x :: xs).dropWhile (fun d => d ≠ '\n'))
      | [] =>
        match afterHash.reverse.dropWhile (fun d => d = '\n') with
        | [] => none
        | d :: _ => some ([d], afterHash.reverse.takeWhile (fun e => e = '\n'))
    | _ => none
  | _ => none

/-- One attempt of Python `re` to match
`^([a-zA-Z_][a-zA-Z0-9_-]*)\s*:(?:[^#]*)##\s*(.+)$` (MULTILINE) at the head
of `s`, which the caller guarantees is a line start.  Returns the two
captured groups and the remainder of the text after the match end.
The greedy pieces resolve deterministically: the name run is maximal, the
whitespace before the colon is maximal, `[^#]*` must stop at the first `#`
of the rest of the text (which therefore has to start a `##`), and after
`##` the greedy `\s*` (which crosses newlines) yields the description
`(.+)$` starting at the next non-whitespace character; when only
whitespace remains to the end of the text, backtracking leaves the last
non-newline whitespace character as the description. -/
def matchTargetAt (s : List Char) : Option (List Char × List Char × List Char) :=
  match s with
  | [] => none
  | c :: rest =>
    if isNameStart c then
      (matchDescPart (rest.dropWhile isNameChar)).map fun dr =>
        (c :: rest.takeWhile isNameChar, dr.1, dr.2)
    else none

/-- Drop the current line: everything up to and including the next newline. -/
def skipLine (s : List Char) : List Char :=
  (s.dropWhile (fun d => d ≠ '\n')).drop 1

/-- `re.finditer` of the target pattern over the whole text: attempts start
only at line starts (the pattern is anchored with `^` under MULTILINE); a
successful match resumes scanning after the newline that terminates it, a
failed line start is skipped whole. -/
def parseTargetsGo : Nat → List Char → List (List Char × List Char)
  | 0, _ => []
  | _ + 1, [] => []
  | fuel + 1, s =>
    match matchTargetAt s with
    | some (name, desc, rest) => (name, desc) :: parseTargetsGo fuel (skipLine rest)
    | none => parseTargetsGo fuel (skipLine s)

/-- One attempt of Python `re` to match `\.PHONY\s*:\s*(.+)` (no MULTILINE)
at the head of `s`.  Returns the captured group and the remainder after the
match end.  The pattern is unanchored, so the caller tries every position. -/
def matchPhonyAt (s : List Char) : Option (List Char × List Char) :=
  match s with
  | '.' :: 'P' :: 'H' :: 'O' :: 'N' :: 'Y' :: rest =>
    match rest.dropWhile isPySpace with
    | ':' :: afterColon =>
      let afterWs := afterColon.dropWhile isPySpace
      match afterWs with
      | _ :: _ =>
        some (afterWs.takeWhile (fun d => d ≠ '\n'),
              afterWs.dropWhile (fun d => d ≠ '\n'))
      | [] =>
        let rev := afterColon.reverse
        match rev.dropWhile (fun d => d = '\n') with
        | [] => none
        | d :: _ => some ([d], rev.takeWhile (fun e => e = '\n'))
    | _ => none
  | _ => none

/-- `re.finditer` of the phony pattern: unanchored scan over every position,
resuming after the end of each match. -/
def findPhonyGo : Nat → List Char → List (List Char)
  | 0, _ => []
  | _ + 1, [] => []
  | fuel + 1, s =>
    match matchPhonyAt s with
    | some (grp, rest) => grp :: findPhonyGo fuel rest
    | none => findPhonyGo fuel s.tail

/-- The accumulated `.PHONY` name set of `parse_makefile` (as a list; only
membership is ever consulted). -/
def phonyNames (content : List Char) : List (List Char) :=
  (findPhonyGo (content.length + 1) content).flatMap
    (fun grp => pySplitGo (grp.length + 1) grp)

/-- `parse_makefile` of `parser.py`, as a function of the file content. -/
def parse_makefile (content : String) : List MakeTarget :=
  let phony := phonyNames content.data
  (parseTargetsGo (content.data.length + 1) content.data).map fun nd =>
    { name := String.mk nd.1
      description := String.mk (pyStrip nd.2)
      is_phony := phony.contains nd.1 }

/-- The character substitution `re.sub(r'[-:]', '_', name)` of
`normalize_tool_name`. -/
def substHyphenColon (s : List Char) : List Char :=
  s.map fun c => if c = '-' || c = ':' then '_' else c

/-- `normalize_tool_name` of `parser.py`. -/
def normalize_tool_name (target_name : String) (pre : String := "make_") : String :=
  pre ++ String.mk (substHyphenColon target_name.data)

/-! ## fnmatch -/

/-- Locate the closing `]` of a glob bracket expression, given the text
after the opening `[`.  Mirrors `fnmatch.translate`: an initial `!` and an
immediately following `]` belong to the class body; if no closing `]`
exists the bracket is not a class at all (the `[` is literal).  Returns the
class body and the text after the closing `]`. -/
def findClassEnd (s : List Char) : Option (List Char × List Char) :=
  let afterBang : Nat := match s with
    | '!' :: _ => 1
    | _ => 0
  let afterLit : Nat := match s.drop afterBang with
    | ']' :: _ => afterBang + 1
    | _ => afterBang
  let body := s.take afterLit ++ (s.drop afterLit).takeWhile (fun c => c ≠ ']')
  match (s.drop afterLit).dropWhile (fun c => c ≠ ']') with
  | ']' :: rest => some (body, rest)
  | _ => none

/-- Membership of a character in a bracket-class body: `a-b` ranges
(checked by code point, as the translated regular expression does),
every other character literal. -/
def classMatch (c : Char) : List Char → Bool
  | a :: '-' :: b :: rest => (a ≤ c && c ≤ b) || classMatch c rest
  | a :: rest => (a = c) || classMatch c rest
  | [] => false

/-- Shell-glob matching of `fnmatch` (POSIX), fueled: `*` matches any
sequence, `?` any single character, `[...]`/`[!...]` bracket classes, all
against the whole name (the translated pattern is anchored on both
sides).  Each recursive call shortens the pattern or the name, so fuel
`pattern length + name length + 1` is exact. -/
def globGo : Nat → List Char → List Char → Bool
  | 0, _, _ => false
  | _ + 1, [], s => s.isEmpty
  | fuel + 1, '*' :: ps, s =>
    globGo fuel ps s ||
      (match s with
       | [] => false
       | _ :: s' => globGo fuel ('*' :: ps) s')
  | fuel + 1, '?' :: ps, s =>
    match s with
    | [] => false
    | _ :: s' => globGo fuel ps s'
  | fuel + 1, '[' :: ps, s =>
    match findClassEnd ps with
    | some (body, rest) =>
      match s with
      | [] => false
      | c :: s' =>
        (match body with
         | '!' :: body' => !classMatch c body'
         | _ => classMatch c body) && globGo fuel rest s'
    | none =>
      match s with
      | '[' :: s' => globGo fuel ps s'
      | _ => false
  | fuel + 1, p :: ps, s =>
    match s with
    | [] => false
    | c :: s' => p = c && globGo fuel ps s'

/-- `fnmatch.fnmatch(name, pat)` on POSIX (where `normcase` is the
identity). -/
def fnmatch (name pat : String) : Bool :=
  globGo (pat.data.length + name.data.length + 1) pat.data name.data

/-! ## server.py -/

/-- The process-wide state the `makefile_mcp` server lives in: the
module-global `_current_working_dir` override slot and the current
directory of the server process itself. -/
structure World where
  overrideSlot : Option String
  processCwd : String
  deriving DecidableEq, Repr

/-- How one subprocess run ends, from the point of view of the `try`
blocks in the source: the launch itself raises, the bounded wait raises
`asyncio.TimeoutError` (the operating system may hold partially captured
output, which the source never reads), the wait is cancelled, some other
exception is raised while waiting, or the process completes with an exit
code and its two decoded streams. -/
inductive Outcome where
  | launchFailure (msg : String)
  | timedOut (pOut pErr : String)
  | cancelled
  | execError (msg : String)
  | completed (returncode : Int) (stdout stderr : String)
  deriving DecidableEq, Repr

deriving instance DecidableEq for Except

/-- The observable effects of one executor call: the value returned to the
caller (`Except.error ()` models an exception escaping the function, which
happens only for cancellation), the command line, the working directory
handed to `create_subprocess_exec`, whether a new session (and hence a new
process group) was requested, and the identities of every process and
process group that the executor signalled. -/
structure ExecEffect where
  ret : Except Unit String
  cmd : List String
  cwd : Option String
  newSession : Bool
  killedPids : List Nat
  termedPids : List Nat
  killedGroups : List Nat
  termedGroups : List Nat
  deriving DecidableEq, Repr

/-- `set_working_directory` of `server.py`: replaces the module-global
override slot and returns the confirmation message. -/
def set_working_directory (path : Option String) (w : World) : World × String :=
  ({ w with overrideSlot := path },
   match path with
   | none => "Working directory cleared"
   | some p => "Working directory set to: " ++ p)

/-- `get_working_directory` of `server.py`. -/
def get_working_directory (w : World) : Option String :=
  w.overrideSlot

/-- The command line built by `run_make` (and by `run_make_target`, which
builds the same shape). -/
def makeCmd (makefile target args : String) (dry_run : Bool) : List String :=
  ["make", "-f", makefile] ++ (if dry_run then ["-n"] else []) ++ [target] ++
    (if args = "" then [] else pySplit args)

/-- `run_make` of `server.py`.  The subprocess is spawned without a new
session, with `cwd` resolved as `_current_working_dir or working_dir`.  On
timeout the immediate child is killed (`proc.kill()`) and reaped; a
cancellation is not caught (`asyncio.CancelledError` is not an
`Exception`), so it escapes with nothing signalled; any other exception,
from the launch or the wait, is reported as text.  No global state is
written. -/
def run_make (makefile target : String) (working_dir : Option String)
    (args : String) (dry_run : Bool) (timeout : Int)
    (childPid : Nat) (outcome : Outcome) (w : World) : World × ExecEffect :=
  let resolved := pyOr w.overrideSlot working_dir
  let base : ExecEffect :=
    { ret := Except.ok ""
      cmd := makeCmd makefile target args dry_run
      cwd := resolved
      newSession := false
      killedPids := [], termedPids := [], killedGroups := [], termedGroups := [] }
  match outcome with
  | .launchFailure e => (w, { base with ret := Except.ok ("Failed to execute: " ++ e) })
  | .timedOut _ _ =>
    (w, { base with
            ret := Except.ok ("Command timed out after " ++ toString timeout ++ " seconds")
            killedPids := [childPid] })
  | .cancelled => (w, { base with ret := Except.error () })
  | .execError e => (w, { base with ret := Except.ok ("Failed to execute: " ++ e) })
  | .completed rc out err =>
    let output := out
    let errors := err
    (w, { base with
            ret := Except.ok
              (if rc ≠ 0 then
                 "Exit code " ++ toString rc ++ ":\n" ++ errors ++ "\n" ++ output
               else pyOrS output (pyOrS errors "(no output)")) })

/-- `any(fnmatch.fnmatch(name, p) for p in patterns)` from `create_server`. -/
def matches_patterns (name : String) (patterns : List String) : Bool :=
  patterns.any fun p => fnmatch name p

/-- Python truthiness of the optional pattern lists (`None` and `[]` are
falsy). -/
def truthyList (o : Option (List String)) : Bool :=
  match o with
  | none => false
  | some l => !l.isEmpty

/-- The target-filter loop of `create_server` in `server.py`: a target is
skipped when `include` is truthy and its name matches no include pattern,
or when `exclude` is truthy and its name matches some exclude pattern. -/
def create_server_filter (targets : List MakeTarget)
    (inc exc : Option (List String)) : List MakeTarget :=
  match targets with
  | [] => []
  | t :: ts =>
    if truthyList inc && !matches_patterns t.name (inc.getD []) then
      create_server_filter ts inc exc
    else if truthyList exc && matches_patterns t.name (exc.getD []) then
      create_server_filter ts inc exc
    else
      t :: create_server_filter ts inc exc

/-- `create_server` of `server.py`, restricted to the state it touches:
it parses the given file content and filters the targets; it writes
neither the override slot nor the current directory of the process. -/
def create_server (content : String) (inc exc : Option (List String))
    (w : World) : World × List MakeTarget :=
  (w, create_server_filter (parse_makefile content) inc exc)

/-! ## server_v2.py -/

/-- `run_make_target` of `server_v2.py`.  The subprocess is spawned with
`start_new_session=True` and no `cwd`.  On timeout the immediate child is
sent SIGTERM (`proc.terminate()`) when still running; on cancellation it
is terminated and, when still running shortly afterwards, killed, and the
cancellation is re-raised.  The process group is never signalled. -/
def run_make_target (make_path target : String) (extra_args : String)
    (dry_run : Bool) (childPid : Nat)
    (stillRunningAtTimeout stillRunningAtCancel stillRunningAfterTerm : Bool)
    (outcome : Outcome) : ExecEffect :=
  let base : ExecEffect :=
    { ret := Except.ok ""
      cmd := makeCmd make_path target extra_args dry_run
      cwd := none
      newSession := true
      killedPids := [], termedPids := [], killedGroups := [], termedGroups := [] }
  match outcome with
  | .launchFailure e =>
    { base with ret := Except.ok ("Failed to start make process: " ++ e) }
  | .timedOut _ _ =>
    { base with
        ret := Except.ok "Make command timed out after 5 minutes"
        termedPids := if stillRunningAtTimeout then [childPid] else [] }
  | .cancelled =>
    { base with
        ret := Except.error ()
        termedPids := if stillRunningAtCancel then [childPid] else []
        killedPids :=
          if stillRunningAtCancel && stillRunningAfterTerm then [childPid] else [] }
  | .execError e =>
    { base with ret := Except.ok ("Error during make execution: " ++ e) }
  | .completed rc out err =>
    { base with
        ret := Except.ok
          (if rc ≠ 0 then
             "Make failed with exit code " ++ toString rc ++ ":\n" ++ err ++ "\n" ++ out
           else pyOrS out (pyOrS err "(no output)")) }

/-- The `os.chdir(working_dir)` prelude of `serve` in `server_v2.py`,
guarded by truthiness of the optional argument. -/
def serve_init (working_dir : Option String) (w : World) : World :=
  match working_dir with
  | some d => if d = "" then w else { w with processCwd := d }
  | none => w

/-- Insertion into a Python `dict` keyed by strings, preserving insertion
order and overwriting in place on an existing key. -/
def dictInsert (k : String) (v : MakeTarget) :
    List (String × MakeTarget) → List (String × MakeTarget)
  | [] => [(k, v)]
  | (k', v') :: rest =>
    if k' = k then (k', v) :: rest else (k', v') :: dictInsert k v rest

/-- The auto-discovery loop of `serve` in `server_v2.py`, folding forward
over the parsed targets with the growing `discovered_targets` dict as
accumulator: targets are dropped by exact name membership in the optional
`include`/`exclude` sets (truthiness-guarded), the survivors inserted
keyed by normalized tool name. -/
def serveDiscoverGo (acc : List (String × MakeTarget))
    (targets : List MakeTarget) (inc exc : Option (List String))
    (pre : String) : List (String × MakeTarget) :=
  match targets with
  | [] => acc
  | t :: ts =>
    if truthyList inc && !(inc.getD []).contains t.name then
      serveDiscoverGo acc ts inc exc pre
    else if truthyList exc && (exc.getD []).contains t.name then
      serveDiscoverGo acc ts inc exc pre
    else
      serveDiscoverGo (dictInsert (normalize_tool_name t.name pre) t acc) ts inc exc pre

/-- The `discovered_targets` dict of `serve`, starting empty. -/
def serveDiscover (targets : List MakeTarget) (inc exc : Option (List String))
    (pre : String) : List (String × MakeTarget) :=
  serveDiscoverGo [] targets inc exc pre

/-! ## Process-survival model and spec-side reference definitions -/

/-- Which of the descendant processes of the child are still alive after
the executor's cleanup: a descendant dies only if it was signalled
individually, or if the child's process group (which holds the
descendants only when a new session was requested at spawn) was
signalled as a group. -/
def survivingDescendants (descendants : List Nat) (childPid : Nat)
    (eff : ExecEffect) : List Nat :=
  descendants.filter fun p =>
    !(eff.killedPids.contains p || eff.termedPids.contains p ||
      (eff.newSession &&
        (eff.killedGroups.contains childPid || eff.termedGroups.contains childPid)))

/-- The working-directory resolution rule as the claim states it: a
non-absent override slot is used regardless of the construction-time
value, otherwise the construction-time value. -/
def specResolve (ov cons : Option String) : Option String :=
  match ov with
  | some d => some d
  | none => cons

/-- The filter rule as the claim states it: a target survives iff
(include patterns absent OR its name matches at least one include glob)
AND (exclude patterns absent OR its name matches no exclude glob). -/
def specFilter (targets : List MakeTarget)
    (inc exc : Option (List String)) : List MakeTarget :=
  targets.filter fun t =>
    (inc.isNone || (inc.getD []).any fun p => fnmatch t.name p) &&
    (exc.isNone || !(exc.getD []).any fun p => fnmatch t.name p)

/-! ## Helper lemmas -/

/-- A successful target-pattern match always captures a non-empty name:
the first character of the name group is mandatory. -/
theorem matchTargetAt_name_ne_nil (s : List Char)
    (nd : List Char × List Char × List Char)
    (h : matchTargetAt s = some nd) : nd.1 ≠ [] := by
  cases s with
  | nil => simp [matchTargetAt] at h
  | cons c rest =>
    simp only [matchTargetAt] at h
    by_cases hc : isNameStart c
    · rw [if_pos hc] at h
      rcases Option.map_eq_some'.mp h with ⟨dr, _, hnd⟩
      rw [← hnd]
      simp
    · rw [if_neg hc] at h
      exact absurd h (by simp)

/-- Every pair produced by the target scan has a non-empty name. -/
theorem parseTargetsGo_name_ne_nil (fuel : Nat) :
    ∀ (s : List Char) (nd : List Char × List Char),
      nd ∈ parseTargetsGo fuel s → nd.1 ≠ [] := by
  induction fuel with
  | zero => intro s nd h; simp [parseTargetsGo] at h
  | succ n ih =>
    intro s nd h
    cases s with
    | nil => simp [parseTargetsGo] at h
    | cons c cs =>
      rw [parseTargetsGo] at h
      · cases hm : matchTargetAt (c :: cs) with
        | none =>
          rw [hm] at h
          exact ih _ _ h
        | some nd0 =>
          obtain ⟨a, b, r⟩ := nd0
          rw [hm] at h
          rcases List.mem_cons.mp h with h1 | h2
          · rw [h1]
            exact matchTargetAt_name_ne_nil _ _ hm
          · exact ih _ _ h2
      · simp

/-- `dropWhile` only stops at an element falsifying the predicate. -/
theorem dropWhile_head_neg {α : Type} (p : α → Bool) :
    ∀ (l : List α) (x : α) (xs : List α), l.dropWhile p = x :: xs → p x = false := by
  intro l
  induction l with
  | nil => intro x xs h; simp at h
  | cons a t ih =>
    intro x xs h
    by_cases ha : p a
    · rw [List.dropWhile_cons_of_pos ha] at h
      exact ih _ _ h
    · rw [List.dropWhile_cons_of_neg ha] at h
      cases h
      simpa using ha

/-- Stripping a list headed by a non-whitespace character cannot empty it. -/
theorem pyStrip_cons_ne_nil (x : Char) (t : List Char)
    (hx : isPySpace x = false) : pyStrip (x :: t) ≠ [] := by
  intro hc
  unfold pyStrip at hc
  rw [List.dropWhile_cons_of_neg (by simp [hx])] at hc
  have h2 : (x :: t).reverse.dropWhile isPySpace = [] :=
    List.reverse_eq_nil_iff.mp hc
  have h3 := List.dropWhile_eq_nil_iff.mp h2 x (by simp)
  simp [hx] at h3

/-- Elements of `skipLine s` come from `s`. -/
theorem mem_skipLine {c : Char} {s : List Char} (h : c ∈ skipLine s) : c ∈ s :=
  (List.dropWhile_sublist _).subset (List.mem_of_mem_drop h)

/-- Dichotomy of the description group: either it survives `strip()`
(the greedy `\s*` stopped at a non-whitespace character that heads the
group), or the match used the end-of-text backtracking and the remainder
after the match consists of newlines only. -/
theorem matchDescPart_strip (aft d r : List Char)
    (h : matchDescPart aft = some (d, r)) :
    pyStrip d ≠ [] ∨ ∀ c ∈ r, c = '\n' := by
  unfold matchDescPart at h
  split at h
  case _ afterColon _ =>
    split at h
    case _ afterHash _ =>
      split at h
      case _ x xs heq =>
        injection h with h'
        injection h' with hd hr
        left
        rw [← hd]
        have hx : isPySpace x = false := dropWhile_head_neg _ _ _ _ heq
        have hxn : x ≠ '\n' := by
          intro hxe
          rw [hxe] at hx
          simp [isPySpace] at hx
        rw [List.takeWhile_cons_of_pos (by simpa using hxn)]
        exact pyStrip_cons_ne_nil x _ hx
      case _ heq =>
        split at h
        · exact absurd h (by simp)
        case _ d0 _ heq2 =>
          injection h with h'
          injection h' with hd hr
          right
          intro c hcm
          rw [← hr] at hcm
          simpa using List.mem_takeWhile_imp hcm
    case _ => exact absurd h (by simp)
  case _ => exact absurd h (by simp)

/-- A successful target-pattern match yields its description group from
`matchDescPart` on the text after the name. -/
theorem matchTargetAt_descPart (s : List Char)
    (nd : List Char × List Char × List Char)
    (h : matchTargetAt s = some nd) :
    ∃ aft, matchDescPart aft = some (nd.2.1, nd.2.2) := by
  cases s with
  | nil => simp [matchTargetAt] at h
  | cons c rest =>
    simp only [matchTargetAt] at h
    by_cases hc : isNameStart c
    · rw [if_pos hc] at h
      rcases Option.map_eq_some'.mp h with ⟨dr, hdr, hnd⟩
      subst hnd
      exact ⟨rest.dropWhile isNameChar, by simpa using hdr⟩
    · rw [if_neg hc] at h
      exact absurd h (by simp)

/-- The target scan produces nothing on text made of newlines only. -/
theorem parseTargetsGo_eq_nil (fuel : Nat) :
    ∀ s : List Char, (∀ c ∈ s, c = '\n') → parseTargetsGo fuel s = [] := by
  induction fuel with
  | zero => intro s _; rfl
  | succ n ih =>
    intro s hs
    cases s with
    | nil => rfl
    | cons c cs =>
      have hc : c = '\n' := hs c (by simp)
      subst hc
      rw [parseTargetsGo]
      · have hm : matchTargetAt ('\n' :: cs) = none := by
          have hns : isNameStart '\n' = false := by decide
          simp [matchTargetAt, hns]
        simp only [hm]
        have hsl : skipLine ('\n' :: cs) = cs := by
          unfold skipLine
          rw [List.dropWhile_cons_of_neg (by simp)]
          rfl
        rw [hsl]
        exact ih cs (fun d hd => hs d (List.mem_cons_of_mem _ hd))
      · simp

/-- Every pair produced by the target scan, except possibly the final
one, has a description that survives `strip()`: an empty (whitespace-only)
description arises only from the end-of-text backtracking of the pattern,
after which only newlines remain and the scan stops producing pairs. -/
theorem parseTargetsGo_desc_ne_nil (fuel : Nat) :
    ∀ (s : List Char) (nd : List Char × List Char),
      nd ∈ (parseTargetsGo fuel s).dropLast → pyStrip nd.2 ≠ [] := by
  induction fuel with
  | zero => intro s nd h; simp [parseTargetsGo] at h
  | succ n ih =>
    intro s nd h
    cases s with
    | nil => simp [parseTargetsGo] at h
    | cons c cs =>
      rw [parseTargetsGo] at h
      · cases hm : matchTargetAt (c :: cs) with
        | none =>
          rw [hm] at h
          exact ih _ _ h
        | some nd0 =>
          obtain ⟨a, dsc, r⟩ := nd0
          rw [hm] at h
          have h' : nd ∈ ((a, dsc) :: parseTargetsGo n (skipLine r)).dropLast := h
          cases hL : parseTargetsGo n (skipLine r) with
          | nil =>
            rw [hL] at h'
            simp at h'
          | cons y ys =>
            rw [hL] at h'
            rw [List.dropLast_cons₂] at h'
            rcases List.mem_cons.mp h' with h1 | h2
            · obtain ⟨aft, hdp⟩ := matchTargetAt_descPart _ _ hm
              rcases matchDescPart_strip _ _ _ hdp with hstrip | hnl
              · rw [h1]
                exact hstrip
              · have hnil : parseTargetsGo n (skipLine r) = [] :=
                  parseTargetsGo_eq_nil n (skipLine r)
                    (fun e he => hnl e (mem_skipLine he))
                rw [hL] at hnil
                exact absurd hnil (by simp)
            · rw [← hL] at h2
              exact ih _ _ h2
      · simp

/-- The filter loop of `create_server` is `List.filter` with the
truthiness-guarded glob predicate. -/
theorem create_server_filter_eq_filter (targets : List MakeTarget)
    (inc exc : Option (List String)) :
    create_server_filter targets inc exc =
      targets.filter fun t =>
        !(truthyList inc && !matches_patterns t.name (inc.getD [])) &&
        !(truthyList exc && matches_patterns t.name (exc.getD [])) := by
  induction targets with
  | nil => rfl
  | cons t ts ih =>
    simp only [create_server_filter, List.filter]
    cases h1 : truthyList inc && !matches_patterns t.name (inc.getD []) with
    | true => simp [h1, ih]
    | false =>
      cases h2 : truthyList exc && matches_patterns t.name (exc.getD []) with
      | true => simp [h1, h2, ih]
      | false => simp [h1, h2, ih]

/-- The include/exclude logic of the discovery loop of `serve` factors
out as `List.filter` with the truthiness-guarded membership predicate. -/
theorem serveDiscoverGo_eq_filter (targets : List MakeTarget) :
    ∀ (acc : List (String × MakeTarget)) (inc exc : Option (List String))
      (pre : String),
      serveDiscoverGo acc targets inc exc pre =
        serveDiscoverGo acc
          (targets.filter fun t =>
            !(truthyList inc && !(inc.getD []).contains t.name) &&
            !(truthyList exc && (exc.getD []).contains t.name))
          none none pre := by
  induction targets with
  | nil => intro acc inc exc pre; rfl
  | cons t ts ih =>
    intro acc inc exc pre
    simp only [serveDiscoverGo, List.filter]
    cases h1 : truthyList inc && !(inc.getD []).contains t.name with
    | true => simp [h1, ih, serveDiscoverGo, truthyList]
    | false =>
      cases h2 : truthyList exc && (exc.getD []).contains t.name with
      | true => simp [h1, h2, ih, serveDiscoverGo, truthyList]
      | false => simp [h1, h2, ih, serveDiscoverGo, truthyList]

/-! ## Claims -/

/-- C1, counterexample: on a timeout of `run_make` (child pid 7, one
descendant pid 8 spawned by the child), the cleanup kills only the
immediate child and signals no process group, so the descendant survives;
`run_make_target` likewise only terminates the immediate child, so the
descendant in the new session survives; and on cancellation `run_make`
signals nothing at all, so even the child survives while the cancellation
escapes.  This refutes the claim that no process spawned by the call
survives the call. -/
theorem claim_C1_counterexample :
    survivingDescendants [8] 7
        (run_make "Makefile" "all" none "" false 300 7
          (Outcome.timedOut "partial" "") ⟨none, "/srv"⟩).2 = [8] ∧
    survivingDescendants [8] 7
        (run_make_target "Makefile" "all" "" false 7 true true true
          (Outcome.timedOut "partial" "")) = [8] ∧
    (run_make "Makefile" "all" none "" false 300 7 Outcome.cancelled
        ⟨none, "/srv"⟩).2.killedPids = [] ∧
    (run_make "Makefile" "all" none "" false 300 7 Outcome.cancelled
        ⟨none, "/srv"⟩).2.termedPids = [] ∧
    survivingDescendants [8] 7
        (run_make "Makefile" "all" none "" false 300 7 Outcome.cancelled
          ⟨none, "/srv"⟩).2 = [8] := by
  decide

/-- C1, amended: on timeout, `run_make` kills exactly the immediate child
and `run_make_target` sends SIGTERM to exactly the immediate child (when
it is still running); neither ever signals a process group, so
descendants are not terminated.  On cancellation, `run_make` lets the
cancellation escape without signalling anything, while `run_make_target`
terminates (and, if needed, kills) only the immediate child before
re-raising. -/
theorem claim_C1_amended (makefile target : String) (wd : Option String)
    (args : String) (dr : Bool) (tmo : Int) (child : Nat) (pOut pErr : String)
    (w : World) (sr1 sr2 sr3 : Bool) :
    ((run_make makefile target wd args dr tmo child
        (Outcome.timedOut pOut pErr) w).2.killedPids = [child] ∧
     (run_make makefile target wd args dr tmo child
        (Outcome.timedOut pOut pErr) w).2.termedPids = [] ∧
     (run_make makefile target wd args dr tmo child
        (Outcome.timedOut pOut pErr) w).2.killedGroups = [] ∧
     (run_make makefile target wd args dr tmo child
        (Outcome.timedOut pOut pErr) w).2.termedGroups = []) ∧
    ((run_make makefile target wd args dr tmo child
        Outcome.cancelled w).2.ret = Except.error () ∧
     (run_make makefile target wd args dr tmo child
        Outcome.cancelled w).2.killedPids = [] ∧
     (run_make makefile target wd args dr tmo child
        Outcome.cancelled w).2.termedPids = []) ∧
    ((run_make_target makefile target args dr child sr1 sr2 sr3
        (Outcome.timedOut pOut pErr)).termedPids
          = (if sr1 then [child] else []) ∧
     (run_make_target makefile target args dr child sr1 sr2 sr3
        (Outcome.timedOut pOut pErr)).killedPids = [] ∧
     (run_make_target makefile target args dr child sr1 sr2 sr3
        (Outcome.timedOut pOut pErr)).killedGroups = [] ∧
     (run_make_target makefile target args dr child sr1 sr2 sr3
        (Outcome.timedOut pOut pErr)).termedGroups = []) ∧
    ((run_make_target makefile target args dr child sr1 sr2 sr3
        Outcome.cancelled).ret = Except.error () ∧
     (run_make_target makefile target args dr child sr1 sr2 sr3
        Outcome.cancelled).termedPids = (if sr2 then [child] else []) ∧
     (run_make_target makefile target args dr child sr1 sr2 sr3
        Outcome.cancelled).killedPids
          = (if sr2 && sr3 then [child] else [])) :=
  ⟨⟨rfl, rfl, rfl, rfl⟩, ⟨rfl, rfl, rfl⟩, ⟨rfl, rfl, rfl, rfl⟩, ⟨rfl, rfl, rfl⟩⟩

/-- C2: `run_make` returns text and never raises under normal operation:
on timeout the result is the fixed message naming the configured bound,
independent of any partially captured output; on a failed launch (and on
any other exception of the `try` block) the result describes the failure;
on completion some string is returned. -/
theorem claim_C2 (makefile target : String) (wd : Option String)
    (args : String) (dr : Bool) (tmo : Int) (child : Nat) (w : World) :
    (∀ pOut pErr,
      (run_make makefile target wd args dr tmo child
          (Outcome.timedOut pOut pErr) w).2.ret =
        Except.ok ("Command timed out after " ++ toString tmo ++ " seconds")) ∧
    (∀ e,
      (run_make makefile target wd args dr tmo child
          (Outcome.launchFailure e) w).2.ret =
        Except.ok ("Failed to execute: " ++ e)) ∧
    (∀ e,
      (run_make makefile target wd args dr tmo child
          (Outcome.execError e) w).2.ret =
        Except.ok ("Failed to execute: " ++ e)) ∧
    (∀ rc out err, ∃ s,
      (run_make makefile target wd args dr tmo child
          (Outcome.completed rc out err) w).2.ret = Except.ok s) :=
  ⟨fun _ _ => rfl, fun _ => rfl, fun _ => rfl, fun _ _ _ => ⟨_, rfl⟩⟩

/-- C3: when the subprocess launches and completes, both executors return,
for exit code zero, stdout if non-empty, else stderr if non-empty, else
the placeholder; for a non-zero exit code, a message stating the code
followed by stderr followed by stdout, both stream sections present even
when empty. -/
theorem claim_C3 (makefile target : String) (wd : Option String)
    (args : String) (dr : Bool) (tmo : Int) (child : Nat) (w : World)
    (sr1 sr2 sr3 : Bool) (rc : Int) (out err : String) :
    (run_make makefile target wd args dr tmo child
        (Outcome.completed rc out err) w).2.ret =
      Except.ok
        (if rc = 0 then
           if out ≠ "" then out else if err ≠ "" then err else "(no output)"
         else "Exit code " ++ toString rc ++ ":\n" ++ err ++ "\n" ++ out) ∧
    (run_make_target makefile target args dr child sr1 sr2 sr3
        (Outcome.completed rc out err)).ret =
      Except.ok
        (if rc = 0 then
           if out ≠ "" then out else if err ≠ "" then err else "(no output)"
         else "Make failed with exit code " ++ toString rc ++ ":\n" ++ err ++
           "\n" ++ out) := by
  constructor
  · by_cases h : rc = 0
    · by_cases ho : out = "" <;> simp [run_make, pyOrS, h, ho]
    · simp [run_make, pyOrS, h]
  · by_cases h : rc = 0
    · by_cases ho : out = "" <;> simp [run_make_target, pyOrS, h, ho]
    · simp [run_make_target, pyOrS, h]

/-- C4, counterexample: with the override slot holding the non-absent
empty string and a construction-time directory supplied, the claimed
precedence demands the override, but `run_make` (Python `or`, which
treats the empty string as falsy) passes the construction-time directory
to the subprocess instead. -/
theorem claim_C4_counterexample :
    specResolve (some "") (some "/srv/app") = some "" ∧
    (run_make "Makefile" "all" (some "/srv/app") "" false 300 1
        (Outcome.completed 0 "" "") ⟨some "", "/w"⟩).2.cwd = some "/srv/app" ∧
    (some "/srv/app" : Option String) ≠ some "" := by
  decide

/-- C4, amended: resolution at call time follows Python truthiness: a
non-absent, non-empty override is used regardless of the construction-time
value; an absent or empty override falls back to the construction-time
value.  Consequently, after `set_working_directory` with a non-empty
directory every subsequent execution runs there, and after clearing the
override executions revert to the construction-time value. -/
theorem claim_C4_amended (makefile target : String) (cons : Option String)
    (args : String) (dr : Bool) (tmo : Int) (child : Nat)
    (outcome : Outcome) (w : World) (d : String) :
    ((run_make makefile target cons args dr tmo child outcome
        (set_working_directory (some d) w).1).2.cwd
          = (if d = "" then cons else some d)) ∧
    ((run_make makefile target cons args dr tmo child outcome
        (set_working_directory none w).1).2.cwd = cons) ∧
    ((run_make makefile target cons args dr tmo child outcome w).2.cwd
          = pyOr w.overrideSlot cons) := by
  refine ⟨?_, ?_, ?_⟩ <;> cases outcome <;>
    simp [run_make, set_working_directory, pyOr]

/-- C5, counterexample: `serve` of `server_v2.py` is part of server
construction, and its `os.chdir` does change the current directory of the
server process itself when a working directory is supplied.  This refutes
the claim that no core operation ever mutates the process's own current
directory. -/
theorem claim_C5_counterexample :
    (serve_init (some "/project") ⟨none, "/start"⟩).processCwd = "/project" ∧
    "/project" ≠ "/start" := by
  decide

/-- C5, amended: in the `makefile_mcp` variant, execution, override
setting, and server construction leave the whole process state (and in
particular its current directory) untouched, the resolved directory being
only handed to the spawned subprocess; in the `mcp_server_make` variant,
`serve` changes the process's current directory to the supplied (truthy)
working directory once, at construction time. -/
theorem claim_C5_amended (makefile target : String) (wd : Option String)
    (args : String) (dr : Bool) (tmo : Int) (child : Nat)
    (outcome : Outcome) (w : World) (p : Option String) (content : String)
    (inc exc : Option (List String)) (d : String) :
    ((run_make makefile target wd args dr tmo child outcome w).1 = w) ∧
    ((set_working_directory p w).1.processCwd = w.processCwd) ∧
    ((create_server content inc exc w).1 = w) ∧
    (serve_init none w = w) ∧
    ((serve_init (some d) w).processCwd = (if d = "" then w.processCwd else d)) := by
  refine ⟨?_, rfl, rfl, rfl, ?_⟩
  · cases outcome <;> rfl
  · by_cases hd : d = "" <;> simp [serve_init, hd]

/-- C6: evaluation of `parse_makefile` at the failing input.  The
dependency part `(?:[^#]*)` of the target pattern matches newlines, so
the match starting at the undocumented line for `clean` runs across the
following lines and captures the description of `deploy`.  The code
thus produces one Target named `clean` (whose line has no `##`) and no
Target at all for the `deploy` line, although that line matches the
documented-target pattern; the claim (one Target per matching line, no
Target for lines without `##`) is contradicted, as are the parser's own
docstring and the repository's test suite. -/
theorem claim_C6_code_bug :
    parse_makefile
        "clean:\n\trm -rf dist/\n\ndeploy: ## Deploy to production (DANGEROUS)\n\t./scripts/deploy.sh\n"
      = [{ name := "clean", description := "Deploy to production (DANGEROUS)",
           is_phony := false }] := by
  decide

/-- C7, counterexample: on the line `foo: ## ` (only whitespace after the
marker) the regular expression still matches, backtracking captures the
single space as the description group, and `strip()` empties it, so the
parser constructs a Target whose description is the empty string. -/
theorem claim_C7_counterexample :
    ¬ (∀ t ∈ parse_makefile "foo: ## \n", t.name ≠ "" ∧ t.description ≠ "") := by
  intro h
  exact (h { name := "foo", description := "", is_phony := false }
    (by decide)).2 rfl

/-- C7, amended: every Target constructed by the parser has a non-empty
name (the first name character is mandatory in the pattern).  Every
Target other than the final one in parse order has a non-empty
description: an empty description arises only from the end-of-text
backtracking exhibited by the counterexample (only whitespace after the
`##` marker up to the end of the file), after which the scan produces no
further Target, so only the final Target can be affected.  Targets are
constructed solely from matches of the target pattern — the phony scan
contributes only the `is_phony` flag — so a name that appears only in
phony declarations yields no Target. -/
theorem claim_C7_amended (content : String) :
    (∀ t ∈ parse_makefile content, t.name ≠ "") ∧
    (∀ t ∈ (parse_makefile content).dropLast, t.description ≠ "") ∧
    (∀ t ∈ parse_makefile content,
      ∃ nd ∈ parseTargetsGo (content.data.length + 1) content.data,
        t = { name := String.mk nd.1
              description := String.mk (pyStrip nd.2)
              is_phony := (phonyNames content.data).contains nd.1 }) := by
  refine ⟨?_, ?_, ?_⟩
  · intro t ht
    simp only [parse_makefile, List.mem_map] at ht
    obtain ⟨nd, hmem, rfl⟩ := ht
    have hne := parseTargetsGo_name_ne_nil _ _ _ hmem
    intro hc
    apply hne
    simpa using congrArg String.data hc
  · intro t ht
    simp only [parse_makefile] at ht
    rw [← List.map_dropLast] at ht
    obtain ⟨nd, hmem, rfl⟩ := List.mem_map.mp ht
    have hd := parseTargetsGo_desc_ne_nil _ _ _ hmem
    intro hc
    apply hd
    simpa using congrArg String.data hc
  · intro t ht
    simp only [parse_makefile, List.mem_map] at ht
    obtain ⟨nd, hmem, heq⟩ := ht
    exact ⟨nd, hmem, heq.symm⟩

/-- Witness for C7 as amended: on a two-target parse, the first Target
(which is in `dropLast`) has both a non-empty name and a non-empty
description. -/
theorem claim_C7_witness :
    ({ name := "a", description := "x", is_phony := false } : MakeTarget).name ≠ "" ∧
    ({ name := "a", description := "x", is_phony := false } : MakeTarget).description ≠ "" :=
  ⟨(claim_C7_amended "a: ## x\nb: ## y\n").1 _ (by decide),
   (claim_C7_amended "a: ## x\nb: ## y\n").2.1 _ (by decide)⟩

/-- C8, counterexample: (a) a present-but-empty include list is falsy in
Python, so `create_server` keeps a target that, by the claimed rule
(include present and matched by none of its zero globs), must be dropped;
(b) the discovery loop of `serve` in `server_v2.py` tests exact set
membership, not glob matching, so with include pattern `te*` the target
`test` is dropped although the claimed glob rule keeps it. -/
theorem claim_C8_counterexample :
    create_server_filter [{ name := "build", description := "d" }] (some []) none
        = [{ name := "build", description := "d" }] ∧
    specFilter [{ name := "build", description := "d" }] (some []) none = [] ∧
    serveDiscover [{ name := "test", description := "d" }] (some ["te*"]) none
        "make_" = [] ∧
    specFilter [{ name := "test", description := "d" }] (some ["te*"]) none
        = [{ name := "test", description := "d" }] := by
  decide

/-- C8, amended: in `create_server` a target survives iff (the include
list is absent or empty, or its name matches at least one include glob)
and (the exclude list is absent or empty, or its name matches no exclude
glob), shell-style glob matching against the whole name, as an
order-preserving `List.filter`; the discovery loop of `serve` applies the
same absent-or-empty rule but with exact name membership in place of glob
matching. -/
theorem claim_C8_amended (targets : List MakeTarget)
    (inc exc : Option (List String)) (pre : String) :
    create_server_filter targets inc exc =
      targets.filter (fun t =>
        (!truthyList inc || matches_patterns t.name (inc.getD [])) &&
        (!truthyList exc || !matches_patterns t.name (exc.getD []))) ∧
    serveDiscover targets inc exc pre =
      serveDiscover
        (targets.filter fun t =>
          (!truthyList inc || (inc.getD []).contains t.name) &&
          (!truthyList exc || !(exc.getD []).contains t.name))
        none none pre := by
  constructor
  · rw [create_server_filter_eq_filter]
    simp [Bool.not_and, Bool.not_not]
  · rw [serveDiscover, serveDiscoverGo_eq_filter, serveDiscover]
    simp [Bool.not_and, Bool.not_not]

/-- C9, counterexample: the prefix is prepended verbatim, so a prefix
containing a hyphen or colon makes the result contain one; with name `a`
and prefix `-` the result is `-a`, refuting the claim that the result
never contains these characters for every prefix. -/
theorem claim_C9_counterexample :
    normalize_tool_name "a" "-" = "-a" ∧
    ¬ (∀ c ∈ (normalize_tool_name "a" "-").data, c ≠ '-' ∧ c ≠ ':') := by
  refine ⟨by decide, fun h => ?_⟩
  exact (h '-' (by decide)).1 rfl

/-- C9, amended: `normalize_tool_name` is a total function equal to the
prefix followed by the name with every hyphen and colon replaced by an
underscore and all other characters unchanged; the part of the result
after the prefix therefore contains no hyphen and no colon (the prefix
itself is prepended verbatim and may contain anything). -/
theorem claim_C9_amended (target_name pre : String) :
    (normalize_tool_name target_name pre).data
        = pre.data ++ (target_name.data.map fun c =>
            if c = '-' || c = ':' then '_' else c) ∧
    ((normalize_tool_name target_name pre).data.drop pre.data.length).all
        (fun c => !(c = '-' || c = ':')) = true := by
  have hdata : (normalize_tool_name target_name pre).data
      = pre.data ++ substHyphenColon target_name.data := by
    simp [normalize_tool_name, String.data_append]
  refine ⟨hdata, ?_⟩
  rw [hdata, List.drop_left]
  rw [List.all_eq_true]
  intro x hx
  simp only [substHyphenColon, List.mem_map] at hx
  obtain ⟨c, _, rfl⟩ := hx
  by_cases hc : c = '-' || c = ':' <;> simp [hc]

/-- C10: a present-but-empty include or exclude pattern list behaves
exactly like an absent one, in the glob filter of `create_server` and in
the membership filter of `serve` alike: with an empty include list every
target survives the include test, with an empty exclude list no target is
dropped. -/
theorem claim_C10 (targets : List MakeTarget) (inc exc : Option (List String))
    (pre : String) :
    create_server_filter targets (some []) exc
        = create_server_filter targets none exc ∧
    create_server_filter targets inc (some [])
        = create_server_filter targets inc none ∧
    serveDiscover targets (some []) exc pre
        = serveDiscover targets none exc pre ∧
    serveDiscover targets inc (some []) pre
        = serveDiscover targets inc none pre := by
  refine ⟨?_, ?_, ?_, ?_⟩
  · rw [create_server_filter_eq_filter, create_server_filter_eq_filter]
    simp [truthyList]
  · rw [create_server_filter_eq_filter, create_server_filter_eq_filter]
    simp [truthyList]
  · rw [serveDiscover, serveDiscover,
      serveDiscoverGo_eq_filter targets [] (some []) exc pre,
      serveDiscoverGo_eq_filter targets [] none exc pre]
    simp [truthyList]
  · rw [serveDiscover, serveDiscover,
      serveDiscoverGo_eq_filter targets [] inc (some []) pre,
      serveDiscoverGo_eq_filter targets [] inc none pre]
    simp [truthyList]
